import Mathlib

/-!  Verification development for the cfst-win-GUI desktop front-end
(`cfst-win-GUI.py`): the tolerant CSV column resolver, the latency and
throughput normalizers, the IP shape heuristic, the region aggregation
and selection export, and the process-tracking state of the two launch
buttons.

Modelling conventions.  Python strings are shallow-embedded as lists of
characters (`Str`).  `str.strip()`, `str.split(sep)`, `str.lower()`,
`str.isdigit()`, `str.isalnum()` are modelled on the ASCII repertoire the
tool's CSV data uses (Python's versions additionally accept some non-ASCII
digits/letters, which never occur in the tool's output).  Python's
`float(num)` on the digit/dot strings produced by the extraction loops, and
the `.1f`/`.2f` format specifiers, are modelled exactly over scaled natural
numbers with round-half-to-even; on the inputs appearing in the theorems
below this coincides with Python's double-based formatting.  File and GUI
side effects are modelled by the pure values written or displayed.  -/

abbrev Str := List Char

abbrev Row := List Str

def chars (s : String) : Str := s.data

/-- Whitespace characters removed by Python `str.strip()`. -/
def isWs (c : Char) : Bool :=
  c == ' ' || c == '\t' || c == '\n' || c == '\r' || c == '\x0b' || c == '\x0c'

/-- Remove trailing whitespace (the right half of Python `str.strip()`). -/
def stripRight : Str → Str
  | [] => []
  | c :: cs => if (stripRight cs).isEmpty && isWs c then [] else c :: stripRight cs

/-- Python `str.strip()`: drop leading and trailing whitespace. -/
def pyStrip (s : Str) : Str := stripRight (s.dropWhile isWs)

/-- Python `str.split(sep)` for a one-character separator. -/
def splitOnChar (sep : Char) : Str → List Str
  | [] => [[]]
  | c :: cs =>
    if c = sep then [] :: splitOnChar sep cs
    else
      match splitOnChar sep cs with
      | [] => [[c]]
      | p :: ps => (c :: p) :: ps

/-- Does the needle match at the front of the haystack? -/
def matchesAt : Str → Str → Bool
  | [], _ => true
  | _ :: _, [] => false
  | a :: as, b :: bs => a == b && matchesAt as bs

/-- Python substring containment `needle in hay`. -/
def containsSub (needle : Str) : Str → Bool
  | [] => needle.isEmpty
  | c :: cs => matchesAt needle (c :: cs) || containsSub needle cs

/-- Value of a decimal digit string (Python `int(p)` for `p.isdigit()`). -/
def digitsToNat (s : Str) : Nat := s.foldl (fun a c => a * 10 + (c.toNat - '0'.toNat)) 0

/-- One dotted-quad component: `p.isdigit() and 0 <= int(p) <= 255`. -/
def isOctet (p : Str) : Bool := !p.isEmpty && p.all Char.isDigit && decide (digitsToNat p ≤ 255)

def segLe4 (p : Str) : Bool := decide (p.length ≤ 4)

/-- First branch of `looks_like_ip`: four dot-separated octets. -/
def dottedQuad (t : Str) : Bool :=
  (splitOnChar '.' t).length == 4 && (splitOnChar '.' t).all isOctet

/-- Second branch of `looks_like_ip`: `":" in s` and every non-empty
colon-separated segment has at most 4 characters. -/
def colonShape (t : Str) : Bool :=
  t.contains ':' && ((splitOnChar ':' t).filter (fun p => !p.isEmpty)).all segLe4

/-- `looks_like_ip` from the source: strip, then dotted-quad or colon shape. -/
def looks_like_ip (s0 : Str) : Bool :=
  if dottedQuad (pyStrip s0) then true
  else if colonShape (pyStrip s0) then true
  else false

/-- Run checker equivalent to the colon-segment length test: `chk k s` holds
when, starting inside a segment that already has `k` characters, every
colon-separated segment of `s` closes with at most 4 characters. -/
def chk (k : Nat) : Str → Bool
  | [] => decide (k ≤ 4)
  | c :: cs => if c = ':' then decide (k ≤ 4) && chk 0 cs else chk (k + 1) cs

/-- Spec-worded IP shape predicate, for the refinement claim about
`looks_like_ip`: a string of four dot-separated octets 0-255, or a
colon-containing token whose segments have at most 4 characters. -/
def ipShapeSpec (t : Str) : Prop :=
  ((splitOnChar '.' t).length = 4 ∧
    ∀ p ∈ splitOnChar '.' t, p ≠ [] ∧ p.all Char.isDigit = true ∧ digitsToNat p ≤ 255) ∨
  (':' ∈ t ∧ ∀ p ∈ splitOnChar ':' t, p.length ≤ 4)

/-- Round `a / b` to the nearest integer, ties to even (the rounding of
Python's fixed-point formatting). -/
def roundHalfEven (a b : Nat) : Nat :=
  let q := a / b
  let r := a % b
  if 2 * r < b then q
  else if b < 2 * r then q + 1
  else if q % 2 = 0 then q else q + 1

def natDigits (n : Nat) : Str := Nat.toDigits 10 n

def pad2 (n : Nat) : Str := if n < 10 then '0' :: natDigits n else natDigits n

/-- Python `f"{x:.1f}"` for the nonnegative decimal `x = n / 10^k`. -/
def fmtFixed1 (n k : Nat) : Str :=
  let r := roundHalfEven (n * 10) (10 ^ k)
  natDigits (r / 10) ++ '.' :: natDigits (r % 10)

/-- Python `f"{x:.2f}"` for the nonnegative rational `x = n / den`. -/
def fmtFixed2 (n den : Nat) : Str :=
  let r := roundHalfEven (n * 100) den
  natDigits (r / 100) ++ '.' :: pad2 (r % 100)

/-- Python `float(num)` on a string of digits and dots, as a scaled natural:
`some (n, k)` means the value `n / 10^k`; `none` means `float` raises. -/
def parseDec (l : Str) : Option (Nat × Nat) :=
  match splitOnChar '.' l with
  | [a] => if a.isEmpty || !a.all Char.isDigit then none else some (digitsToNat a, 0)
  | [a, b] =>
    if (a.isEmpty && b.isEmpty) || !a.all Char.isDigit || !b.all Char.isDigit then none
    else some (digitsToNat a * 10 ^ b.length + digitsToNat b, b.length)
  | _ => none

/-- Python `.replace("ms", " ")` (left-to-right, non-overlapping). -/
def replaceMs : Str → Str
  | 'm' :: 's' :: rest => ' ' :: replaceMs rest
  | c :: rest => c :: replaceMs rest
  | [] => []

/-- Python `.replace(",", " ")`. -/
def replaceCommaSp (s : Str) : Str := s.map (fun c => if c = ',' then ' ' else c)

/-- The scanning loop of `_normalize_avg`: collect digits and dots, but stop
at the first other character once collection has started. -/
def extractNumGo (num : Str) : Str → Str
  | [] => num
  | c :: cs =>
    if c.isDigit || c = '.' then extractNumGo (num ++ [c]) cs
    else if num.isEmpty then extractNumGo num cs
    else num

def extractNum (l : Str) : Str := extractNumGo [] l

/-- `low` of `_normalize_avg`: `s.lower().replace("ms", " ").replace(",", " ").strip()`. -/
def avgLow (s : Str) : Str := pyStrip (replaceCommaSp (replaceMs (s.map Char.toLower)))

/-- The final `return` of `_normalize_avg`: the trimmed string, truncated to
12 characters plus an ellipsis when longer. -/
def avgFallback (s : Str) : Str := if s.length ≤ 12 then s else s.take 12 ++ chars "..."

/-- `_normalize_avg` from the source.  The Python guards `float` with
`if num:` and catches its exceptions; both failure paths end at the final
`return`, modelled by the `none` branch of `parseDec`. -/
def _normalize_avg (s0 : Str) : Str :=
  if (pyStrip s0).isEmpty then []
  else
    match parseDec (extractNum (avgLow (pyStrip s0))) with
    | some nk => fmtFixed1 nk.1 nk.2
    | none => avgFallback (pyStrip s0)

/-- `low` of `_normalize_down`: `s.lower().replace(",", "").strip()`. -/
def downLow (s : Str) : Str := pyStrip ((s.map Char.toLower).filter (fun c => !(c == ',')))

/-- `num` of `_normalize_down`: every digit or dot of `low`, in order (the
same expression is evaluated in each unit branch). -/
def downNum (low : Str) : Str := low.filter (fun c => c.isDigit || c == '.')

/-- `_normalize_down` from the source.  In the Python, `num` is computed by
the same comprehension in every unit branch, an empty `num` falls through
every branch to `return s`, and a `float` failure raises out of the whole
`try` to `return s`; this is modelled by computing `num` and its parse once
and selecting the divisor by the first matching unit substring. -/
def _normalize_down (s0 : Str) : Str :=
  if (pyStrip s0).isEmpty then []
  else
    match parseDec (downNum (downLow (pyStrip s0))) with
    | none => pyStrip s0
    | some nk =>
      if containsSub (chars "mb") (downLow (pyStrip s0)) then fmtFixed2 nk.1 (10 ^ nk.2)
      else if containsSub (chars "kb") (downLow (pyStrip s0)) then
        fmtFixed2 nk.1 (10 ^ nk.2 * 1024)
      else if containsSub (chars "b/s") (downLow (pyStrip s0)) ||
          containsSub (chars "bps") (downLow (pyStrip s0)) ||
          containsSub (chars "byte") (downLow (pyStrip s0)) then
        fmtFixed2 nk.1 (10 ^ nk.2 * 1024 * 1024)
      else fmtFixed2 nk.1 (10 ^ nk.2)

/-- Index of the first element satisfying `p` (the header scan with `break`). -/
def firstIdxP {α : Type} (p : α → Bool) : List α → Option Nat
  | [] => none
  | h :: t => if p h then some 0 else (firstIdxP p t).map (· + 1)

/-- Index of the last element satisfying `p` (the `on_stat` header scan,
which keeps overwriting without `break`). -/
def lastIdxP {α : Type} (p : α → Bool) : List α → Option Nat
  | [] => none
  | h :: t =>
    match lastIdxP p t with
    | some i => some (i + 1)
    | none => if p h then some 0 else none

def findFirstAux (p : Nat → Bool) : Nat → Nat → Option Nat
  | _, 0 => none
  | i, fuel + 1 => if p i then some i else findFirstAux p (i + 1) fuel

/-- First `c < m` with `p c` (the `for c in range(m)` sniffing loop). -/
def findFirst (p : Nat → Bool) (m : Nat) : Option Nat := findFirstAux p 0 m

def colAliasesIp : List Str :=
  [chars "ip 地址", chars "ip地址", chars "ip", chars "address", chars "host"]

def colAliasesAvg : List Str :=
  [chars "平均延迟", chars "平均延时", chars "avg", chars "avg_rtt", chars "latency",
   chars "rtt", chars "平均延迟(ms)"]

def colAliasesDown : List Str :=
  [chars "下载速度(mb/s)", chars "下载速度", chars "download", chars "download speed",
   chars "download_mb", chars "下载速度(MB/s)"]

def colAliasesRegion : List Str :=
  [chars "地区码", chars "地区", chars "region", chars "colo", chars "cfcolo",
   chars "place", chars "country"]

/-- One header cell matches a field when some alias equals or is contained in
the stripped lower-cased cell. -/
def aliasMatch (variants : List Str) (h : Str) : Bool :=
  variants.any (fun v =>
    (v.map Char.toLower) == ((pyStrip h).map Char.toLower) ||
    containsSub (v.map Char.toLower) ((pyStrip h).map Char.toLower))

/-- `header = [h.strip() for h in rows[0]]`. -/
def headerOf (rows : List Row) : List Str := (rows.headD []).map pyStrip

def headerIpIdx (rows : List Row) : Option Nat :=
  firstIdxP (aliasMatch colAliasesIp) (headerOf rows)

def headerAvgIdx (rows : List Row) : Option Nat :=
  firstIdxP (aliasMatch colAliasesAvg) (headerOf rows)

def headerDownIdx (rows : List Row) : Option Nat :=
  firstIdxP (aliasMatch colAliasesDown) (headerOf rows)

def headerRegionIdx (rows : List Row) : Option Nat :=
  firstIdxP (aliasMatch colAliasesRegion) (headerOf rows)

/-- `start_row = 1 if probable_header else 0`. -/
def startRowOf (rows : List Row) : Nat :=
  if (headerIpIdx rows).isSome || (headerAvgIdx rows).isSome ||
     (headerDownIdx rows).isSome || (headerRegionIdx rows).isSome then 1 else 0

/-- `sample_rows = rows[start_row:start_row+10]`. -/
def sampleRows (rows : List Row) : List Row := (rows.drop (startRowOf rows)).take 10

/-- `max(len(r) for r in rows)` (0 on an empty list). -/
def numCols (rows : List Row) : Nat := rows.foldr (fun r a => max r.length a) 0

/-- Bound of the sniffing loop: widest sample row, or the header width when
there are no sample rows. -/
def sniffBound (rows : List Row) : Nat :=
  if (sampleRows rows).isEmpty then (headerOf rows).length else numCols (sampleRows rows)

/-- Inner loop of the sniff: some sample row has an IP-shaped value in
column `c` (`c < len(r) and looks_like_ip(r[c])` for some `r`). -/
def sniffPred (rows : List Row) (c : Nat) : Bool :=
  (sampleRows rows).any (fun r => ((r.get? c).map looks_like_ip).getD false)

/-- The content sniff of `_load_result_into_table`. -/
def sniffIp (rows : List Row) : Option Nat := findFirst (sniffPred rows) (sniffBound rows)

structure ResolvedCols where
  ip : Nat
  avg : Nat
  down : Nat
  region : Nat
  deriving DecidableEq

/-- The complete column resolution of `_load_result_into_table`:
header match, then (for "ip") content sniff, then fixed defaults. -/
def resolveIndices (rows : List Row) : ResolvedCols :=
  ⟨(match headerIpIdx rows with
    | some i => i
    | none =>
      match sniffIp rows with
      | some c => c
      | none => 0),
   (headerAvgIdx rows).getD (min 4 (numCols rows - 1)),
   (headerDownIdx rows).getD (min 5 (numCols rows - 1)),
   (headerRegionIdx rows).getD (min 6 (numCols rows - 1))⟩

def statRegionKeys : List Str :=
  [chars "colo", chars "cfcolo", chars "region", chars "place", chars "country"]

/-- `h.strip().lower()` for one `on_stat` header cell. -/
def statLower (h : Str) : Str := (pyStrip h).map Char.toLower

/-- `region_idx` of `on_stat` (the loop has no `break`: last match wins). -/
def statRegionIdx (rows : List Row) : Option Nat :=
  lastIdxP (fun h => statRegionKeys.any (fun k => containsSub k (statLower h))) (rows.headD [])

/-- `ip_idx` of `on_stat` from the header scan (last match wins). -/
def statIpIdxHeader (rows : List Row) : Option Nat :=
  lastIdxP (fun h => containsSub (chars "ip") (statLower h) ||
    containsSub (chars "address") (statLower h)) (rows.headD [])

def statStartRow (rows : List Row) : Nat :=
  if (statRegionIdx rows).isSome || (statIpIdxHeader rows).isSome then 1 else 0

/-- `ip_idx` of `on_stat` after the first-data-row fallback and the final
`ip_idx = 0` default. -/
def statIpIdx (rows : List Row) : Nat :=
  match statIpIdxHeader rows with
  | some i => i
  | none =>
    match rows.get? (statStartRow rows) with
    | some r => (firstIdxP looks_like_ip r).getD 0
    | none => 0

/-- `ip = r[ip_idx].strip() if ip_idx < len(r) else ""`. -/
def rowIp (ipIdx : Nat) (r : Row) : Str := pyStrip (r.getD ipIdx [])

/-- The region fallback token test: a stripped cell of 2 to 4 alphanumeric
characters. -/
def regionTokenOk (s : Str) : Bool :=
  decide (2 ≤ s.length) && decide (s.length ≤ 4) && s.all Char.isAlphanum

/-- The region code of one `on_stat` data row: the cell at `region_idx` when
present and non-blank, else the first 2-4 character alphanumeric token of
the row, else `"UNKNOWN"`. -/
def rowRegion (ridx : Option Nat) (r : Row) : Str :=
  let base :=
    match ridx with
    | some i => pyStrip (pyStrip (r.getD i []))
    | none => []
  if base.isEmpty then
    match r.find? (fun col => regionTokenOk (pyStrip col)) with
    | some col => pyStrip col
    | none => chars "UNKNOWN"
  else base

/-- `counter[region].append(ip)` on the insertion-ordered association list
that models the `defaultdict(list)`. -/
def addIp (code ip : Str) : List (Str × List Str) → List (Str × List Str)
  | [] => [(code, [ip])]
  | e :: rest => if e.1 = code then (e.1, e.2 ++ [ip]) :: rest else e :: addIp code ip rest

def lookupG (code : Str) : List (Str × List Str) → Option (List Str)
  | [] => none
  | e :: rest => if e.1 = code then some e.2 else lookupG code rest

def keysOf (acc : List (Str × List Str)) : List Str := acc.map Prod.fst

/-- One iteration of the `on_stat` aggregation loop. -/
def groupStep (ipIdx : Nat) (ridx : Option Nat) (acc : List (Str × List Str)) (r : Row) :
    List (Str × List Str) :=
  if r.isEmpty then acc
  else if (rowIp ipIdx r).isEmpty then acc
  else addIp (rowRegion ridx r) (rowIp ipIdx r) acc

/-- The `on_stat` aggregation loop over the data rows. -/
def groupRows (ipIdx : Nat) (ridx : Option Nat) (dataRows : List Row) :
    List (Str × List Str) :=
  dataRows.foldl (groupStep ipIdx ridx) []

def cntOf (e : Str × List Str) : Nat := e.2.length

/-- Stable descending insertion by IP count: a later item goes after every
earlier item with at least its count. -/
def insDesc (x : Str × List Str) : List (Str × List Str) → List (Str × List Str)
  | [] => [x]
  | y :: ys => if cntOf x ≤ cntOf y then y :: insDesc x ys else x :: y :: ys

/-- `items.sort(key=lambda x: count, reverse=True)` — Python's sort is
stable, and `reverse=True` keeps the order of equal keys. -/
def sortRegions (items : List (Str × List Str)) : List (Str × List Str) :=
  items.foldl (fun acc x => insDesc x acc) []

/-- The IPs that the aggregation loop appends under `code`, in row order. -/
def specIps (ipIdx : Nat) (ridx : Option Nat) (code : Str) (dataRows : List Row) :
    List Str :=
  (dataRows.filter (fun r => !(rowIp ipIdx r).isEmpty && rowRegion ridx r == code)).map
    (rowIp ipIdx)

/-- Helper for the grouping characterization: the list under a key after
appending `l`, given the list (if any) before. -/
def combineIps : Option (List Str) → List Str → Option (List Str)
  | none, l => if l.isEmpty then none else some l
  | some l0, l => some (l0 ++ l)

/-- The full `on_stat` region list (region code and its IPs, sorted by count
descending; the display-name table only affects presentation text). -/
def onStatRegions (rows : List Row) : List (Str × List Str) :=
  sortRegions (groupRows (statIpIdx rows) (statRegionIdx rows)
    (rows.drop (statStartRow rows)))

/-- Lexicographic order on code points (Python `<` on strings). -/
def strLt : Str → Str → Bool
  | [], [] => false
  | [], _ :: _ => true
  | _ :: _, [] => false
  | a :: as, b :: bs => if a < b then true else if b < a then false else strLt as bs

/-- Insert into a strictly ascending list, skipping duplicates. -/
def insUniq (x : Str) : List Str → List Str
  | [] => [x]
  | y :: ys =>
    if strLt x y then x :: y :: ys
    else if x = y then y :: ys
    else y :: insUniq x ys

/-- `sorted({ip.strip() for ip in ips if ip.strip()})` of `on_region_double`:
the lines written to region_ok.txt. -/
def exportLines (ips : List Str) : List Str :=
  ((ips.map pyStrip).filter (fun s => !s.isEmpty)).foldr insUniq []

inductive PKind
  | scan
  | speed
  deriving DecidableEq

/-- One launched external process: its pid, which action launched it,
whether the OS process has terminated, and whether the monitor thread
started for it (`monitor_process_and_restore`) has yet to deliver its single
queued `on_done` call. -/
structure PRec where
  pid : Nat
  kind : PKind
  exited : Bool
  monPending : Bool
  deriving DecidableEq

/-- Process-tracking state of the GUI: the two launch buttons, the single
`_current_process` handle (a later launch overwrites it), the single shared
`_ui_timer` — recorded as the action whose `on_done` its `ui_check` closure
captured — and the launched processes. -/
structure GuiState where
  scanEnabled : Bool
  speedEnabled : Bool
  current : Option Nat
  timer : Option PKind
  procs : List PRec
  deriving DecidableEq

def initState : GuiState := ⟨true, true, none, none, []⟩

/-- `self._ui_timer` is created, capturing the launching action's `on_done`,
only when no timer is live (`if self._ui_timer is None`); otherwise the old
timer — with the old closure — keeps running. -/
def timerAfterLaunch (k : PKind) : Option PKind → Option PKind
  | none => some k
  | some k0 => some k0

def setExited (pid : Nat) (l : List PRec) : List PRec :=
  l.map (fun r => if r.pid = pid then ⟨r.pid, r.kind, true, r.monPending⟩ else r)

def clearMon (pid : Nat) (l : List PRec) : List PRec :=
  l.map (fun r => if r.pid = pid then ⟨r.pid, r.kind, r.exited, false⟩ else r)

/-- The body of an action's `on_done` callback: re-enable that action's
button and clear `_current_process`.  The code has no already-reaped guard
here, so the callback may run mis-paired with another process's exit, and
more than once for the same exit. -/
def onDone (k : PKind) (s : GuiState) : GuiState :=
  match k with
  | PKind.scan => ⟨true, s.speedEnabled, none, s.timer, s.procs⟩
  | PKind.speed => ⟨s.scanEnabled, true, none, s.timer, s.procs⟩

/-- `ui_check` stops and clears the timer after acting. -/
def stopTimer (s : GuiState) : GuiState :=
  ⟨s.scanEnabled, s.speedEnabled, s.current, none, s.procs⟩

inductive Ev
  | scanLaunch (pid : Nat)
  | scanLaunchFail
  | speedLaunch (pid : Nat)
  | speedLaunchFail
  | procExit (pid : Nat)
  | monDeliver (pid : Nat)
  | timerFire
  | timerClear
  deriving DecidableEq

/-- Labeled transitions of the process-tracking logic of `on_scan`,
`on_speed`, `monitor_process_and_restore` and `ui_check`.  A launch fires
only while its button is enabled, disables that button, overwrites
`_current_process`, registers the new running process with one pending
monitor delivery, and creates the shared timer (capturing this action's
`on_done`) only if none is live.  A failed launch leaves the state unchanged
(the code disables and immediately re-enables the button).  A process exits
at an arbitrary later moment.  A monitor delivers its own action's `on_done`
exactly once, some time after its process has exited.  A tick of the live
timer either clears the timer when `_current_process` is `None`, or — when
the CURRENTLY tracked process, whichever it now is, has exited — invokes the
CAPTURED action's `on_done` and stops.  Because `on_done` is unguarded,
deliveries can be mis-paired (the timer captured one action but polls the
other action's process) and duplicated (monitor and timer both reporting the
same exit). -/
inductive GuiStep : GuiState → Ev → GuiState → Prop
  | scanLaunch (s : GuiState) (pid : Nat) :
      s.scanEnabled = true →
      (∀ r ∈ s.procs, r.pid ≠ pid) →
      GuiStep s (Ev.scanLaunch pid)
        ⟨false, s.speedEnabled, some pid, timerAfterLaunch PKind.scan s.timer,
         s.procs ++ [⟨pid, PKind.scan, false, true⟩]⟩
  | scanLaunchFail (s : GuiState) :
      s.scanEnabled = true → GuiStep s Ev.scanLaunchFail s
  | speedLaunch (s : GuiState) (pid : Nat) :
      s.speedEnabled = true →
      (∀ r ∈ s.procs, r.pid ≠ pid) →
      GuiStep s (Ev.speedLaunch pid)
        ⟨s.scanEnabled, false, some pid, timerAfterLaunch PKind.speed s.timer,
         s.procs ++ [⟨pid, PKind.speed, false, true⟩]⟩
  | speedLaunchFail (s : GuiState) :
      s.speedEnabled = true → GuiStep s Ev.speedLaunchFail s
  | procExit (s : GuiState) (pid : Nat) (r : PRec) :
      r ∈ s.procs → r.pid = pid → r.exited = false →
      GuiStep s (Ev.procExit pid)
        ⟨s.scanEnabled, s.speedEnabled, s.current, s.timer, setExited pid s.procs⟩
  | monDeliver (s : GuiState) (pid : Nat) (r : PRec) :
      r ∈ s.procs → r.pid = pid → r.exited = true → r.monPending = true →
      GuiStep s (Ev.monDeliver pid)
        (onDone r.kind ⟨s.scanEnabled, s.speedEnabled, s.current, s.timer,
          clearMon pid s.procs⟩)
  | timerFire (s : GuiState) (k : PKind) (q : Nat) (r : PRec) :
      s.timer = some k → s.current = some q → r ∈ s.procs → r.pid = q →
      r.exited = true →
      GuiStep s Ev.timerFire (stopTimer (onDone k s))
  | timerClear (s : GuiState) (k : PKind) :
      s.timer = some k → s.current = none →
      GuiStep s Ev.timerClear (stopTimer s)

inductive Reachable : GuiState → Prop
  | init : Reachable initState
  | step {s : GuiState} {e : Ev} {t : GuiState} :
      Reachable s → GuiStep s e t → Reachable t

/-- States along the trace scan-launch(0), speed-launch(1), exit(1),
timer-fire, scan-launch(2): the launch steps and the mis-paired timer
delivery that re-enables the scan button while process 0 still runs. -/
def exC2s1 : GuiState :=
  ⟨false, true, some 0, some PKind.scan, [⟨0, PKind.scan, false, true⟩]⟩

def exC2s2 : GuiState :=
  ⟨false, false, some 1, some PKind.scan,
   [⟨0, PKind.scan, false, true⟩, ⟨1, PKind.speed, false, true⟩]⟩

def exC2s3 : GuiState :=
  ⟨false, false, some 1, some PKind.scan,
   [⟨0, PKind.scan, false, true⟩, ⟨1, PKind.speed, true, true⟩]⟩

def exC2s4 : GuiState :=
  ⟨true, false, none, none,
   [⟨0, PKind.scan, false, true⟩, ⟨1, PKind.speed, true, true⟩]⟩

def exC2s5 : GuiState :=
  ⟨false, false, some 2, some PKind.scan,
   [⟨0, PKind.scan, false, true⟩, ⟨1, PKind.speed, true, true⟩,
    ⟨2, PKind.scan, false, true⟩]⟩

/-- Result rows with no header and a non-IP value above an IP value in
column 0. -/
def ex1 : List Row :=
  [[chars "x", chars "1.2.3.4"], [chars "1.2.3.4", chars "5.6.7.8"]]

/-- region.csv rows whose second data row has a blank IP cell but an
IP-shaped value in a later column. -/
def ex7 : List Row :=
  [[chars "ip", chars "colo"],
   [chars "1.1.1.1", chars "LAX"],
   [chars "", chars "LAX", chars "2.2.2.2"]]

lemma ws_ne_colon (c : Char) (h : isWs c = true) : c ≠ ':' := by
  intro hc
  subst hc
  exact absurd h (by decide)

lemma chk_le_four (s : Str) (k : Nat) (h : chk k s = true) : k ≤ 4 := by
  induction s generalizing k with
  | nil => simpa [chk] using h
  | cons c cs ih =>
    by_cases hc : c = ':'
    · simp [chk, hc] at h
      exact h.1
    · simp [chk, hc] at h
      exact Nat.le_of_succ_le (ih (k + 1) h)

lemma chk_mono (s : Str) (j k : Nat) (hjk : j ≤ k) (h : chk k s = true) : chk j s = true := by
  induction s generalizing j k with
  | nil =>
    have hk := chk_le_four [] k h
    simp [chk]
    omega
  | cons c cs ih =>
    by_cases hc : c = ':'
    · simp [chk, hc] at h ⊢
      exact ⟨le_trans hjk h.1, h.2⟩
    · simp [chk, hc] at h ⊢
      exact ih (j + 1) (k + 1) (Nat.succ_le_succ hjk) h

lemma chk_append (xs w : Str) (k : Nat) (h : chk k (xs ++ w) = true) : chk k xs = true := by
  induction xs generalizing k with
  | nil =>
    simp [chk]
    exact chk_le_four w k (by simpa using h)
  | cons c cs ih =>
    by_cases hc : c = ':'
    · simp [chk, hc] at h ⊢
      exact ⟨h.1, ih 0 h.2⟩
    · simp [chk, hc] at h ⊢
      exact ih (k + 1) h

lemma chk_dropWhile (s : Str) (h : chk 0 s = true) : chk 0 (s.dropWhile isWs) = true := by
  induction s with
  | nil => simpa using h
  | cons c cs ih =>
    by_cases hw : isWs c = true
    · have hc : ¬ c = ':' := ws_ne_colon c hw
      rw [List.dropWhile_cons, if_pos hw]
      apply ih
      simp [chk, hc] at h
      exact chk_mono cs 0 1 (by omega) h
    · rw [List.dropWhile_cons, if_neg hw]
      exact h

lemma stripRight_decomp (s : Str) : ∃ w, stripRight s ++ w = s ∧ ∀ c ∈ w, isWs c = true := by
  induction s with
  | nil => exact ⟨[], rfl, by simp⟩
  | cons c cs ih =>
    obtain ⟨w, hw, hws⟩ := ih
    by_cases h : ((stripRight cs).isEmpty && isWs c) = true
    · rw [Bool.and_eq_true] at h
      have h1 : stripRight cs = [] := List.isEmpty_iff.1 h.1
      have h2 : isWs c = true := h.2
      have hcs : cs = w := by
        have hx := hw
        rw [h1] at hx
        simpa using hx.symm
      refine ⟨c :: cs, ?_, ?_⟩
      · simp [stripRight, h]
      · intro d hd
        rcases List.mem_cons.1 hd with rfl | hd
        · exact h2
        · exact hws d (hcs ▸ hd)
    · refine ⟨w, ?_, hws⟩
      simp only [stripRight, h, if_false, Bool.false_eq_true]
      simpa using hw

lemma colon_mem_stripRight (s : Str) (h : ':' ∈ s) : ':' ∈ stripRight s := by
  obtain ⟨w, hw, hws⟩ := stripRight_decomp s
  rw [← hw] at h
  rcases List.mem_append.1 h with h1 | h2
  · exact h1
  · exact absurd (hws ':' h2) (by decide)

lemma colon_mem_dropWhile (s : Str) (h : ':' ∈ s) : ':' ∈ s.dropWhile isWs := by
  induction s with
  | nil => simp at h
  | cons c cs ih =>
    by_cases hw : isWs c = true
    · have hc : c ≠ ':' := ws_ne_colon c hw
      rw [List.dropWhile_cons, if_pos hw]
      apply ih
      rcases List.mem_cons.1 h with h1 | h1
      · exact absurd h1.symm hc
      · exact h1
    · rw [List.dropWhile_cons, if_neg hw]
      exact h

lemma colon_mem_pyStrip (s : Str) (h : ':' ∈ s) : ':' ∈ pyStrip s :=
  colon_mem_stripRight _ (colon_mem_dropWhile s h)

lemma chk_pyStrip (s : Str) (h : chk 0 s = true) : chk 0 (pyStrip s) = true := by
  unfold pyStrip
  obtain ⟨w, hw, _⟩ := stripRight_decomp (s.dropWhile isWs)
  exact chk_append _ w 0 (by rw [hw]; exact chk_dropWhile s h)

lemma splitOnChar_ne_nil (sep : Char) (s : Str) : splitOnChar sep s ≠ [] := by
  cases s with
  | nil => simp [splitOnChar]
  | cons c cs =>
    by_cases hc : c = sep
    · simp [splitOnChar, hc]
    · cases h : splitOnChar sep cs <;> simp [splitOnChar, hc, h]

lemma splitOnChar_struct (sep : Char) (s : Str) :
    splitOnChar sep s = ((splitOnChar sep s).headD []) :: (splitOnChar sep s).tail := by
  cases h : splitOnChar sep s with
  | nil => exact absurd h (splitOnChar_ne_nil sep s)
  | cons a t => simp

lemma splitOnChar_cons_eq (sep : Char) (cs : Str) :
    splitOnChar sep (sep :: cs) = [] :: splitOnChar sep cs := by
  simp [splitOnChar]

lemma splitOnChar_cons_ne (sep c : Char) (cs : Str) (hc : c ≠ sep) :
    splitOnChar sep (c :: cs) =
      (c :: (splitOnChar sep cs).headD []) :: (splitOnChar sep cs).tail := by
  cases h : splitOnChar sep cs with
  | nil => exact absurd h (splitOnChar_ne_nil sep cs)
  | cons a t => simp [splitOnChar, hc, h]

lemma chk_iff_segs (s : Str) (k : Nat) :
    chk k s = true ↔ (k + ((splitOnChar ':' s).headD []).length ≤ 4 ∧
      ∀ p ∈ (splitOnChar ':' s).tail, p.length ≤ 4) := by
  induction s generalizing k with
  | nil => simp [chk, splitOnChar]
  | cons c cs ih =>
    by_cases hc : c = ':'
    · subst hc
      rw [splitOnChar_cons_eq]
      simp only [List.headD_cons, List.tail_cons, List.length_nil, Nat.add_zero]
      have hchk : chk k (':' :: cs) = (decide (k ≤ 4) && chk 0 cs) := by simp [chk]
      rw [hchk, Bool.and_eq_true, decide_eq_true_eq, ih 0]
      constructor
      · rintro ⟨h1, h2, h3⟩
        refine ⟨h1, ?_⟩
        intro p hp
        rw [splitOnChar_struct ':' cs] at hp
        rcases List.mem_cons.1 hp with rfl | hp
        · omega
        · exact h3 p hp
      · rintro ⟨h1, h2⟩
        refine ⟨h1, ?_, ?_⟩
        · have := h2 _ (by rw [splitOnChar_struct ':' cs]; exact List.mem_cons_self _ _)
          omega
        · intro p hp
          exact h2 p (by rw [splitOnChar_struct ':' cs]; exact List.mem_cons_of_mem _ hp)
    · rw [splitOnChar_cons_ne ':' c cs hc]
      simp only [List.headD_cons, List.tail_cons, List.length_cons]
      have hchk : chk k (c :: cs) = chk (k + 1) cs := by simp [chk, hc]
      rw [hchk, ih (k + 1)]
      constructor
      · rintro ⟨h1, h2⟩
        exact ⟨by omega, h2⟩
      · rintro ⟨h1, h2⟩
        exact ⟨by omega, h2⟩

lemma chk_zero_iff_all (s : Str) :
    chk 0 s = true ↔ ∀ p ∈ splitOnChar ':' s, p.length ≤ 4 := by
  rw [chk_iff_segs]
  constructor
  · rintro ⟨h1, h2⟩ p hp
    rw [splitOnChar_struct ':' s] at hp
    rcases List.mem_cons.1 hp with rfl | hp
    · omega
    · exact h2 p hp
  · intro h
    refine ⟨?_, fun p hp => h p ?_⟩
    · have := h _ (by rw [splitOnChar_struct ':' s]; exact List.mem_cons_self _ _)
      omega
    · rw [splitOnChar_struct ':' s]
      exact List.mem_cons_of_mem _ hp

lemma all_filter_segLe4 (l : List Str) :
    ((l.filter (fun p => !p.isEmpty)).all segLe4) = l.all segLe4 := by
  induction l with
  | nil => rfl
  | cons p ps ih =>
    cases p with
    | nil => simp [List.filter_cons, segLe4, ih]
    | cons a as => simp [List.filter_cons, List.all_cons, ih]

lemma colonShape_iff (t : Str) :
    colonShape t = true ↔ (':' ∈ t ∧ ∀ p ∈ splitOnChar ':' t, p.length ≤ 4) := by
  unfold colonShape
  rw [Bool.and_eq_true, all_filter_segLe4]
  simp [List.contains, List.elem_iff, List.all_eq_true, segLe4]

lemma dottedQuad_iff (t : Str) :
    dottedQuad t = true ↔
      ((splitOnChar '.' t).length = 4 ∧
        ∀ p ∈ splitOnChar '.' t, p ≠ [] ∧ p.all Char.isDigit = true ∧ digitsToNat p ≤ 255) := by
  unfold dottedQuad isOctet
  simp [List.all_eq_true, Bool.and_eq_true, List.isEmpty_iff, and_assoc]

lemma looks_like_ip_eq (s : Str) :
    looks_like_ip s = (dottedQuad (pyStrip s) || colonShape (pyStrip s)) := by
  unfold looks_like_ip
  cases dottedQuad (pyStrip s) <;> cases colonShape (pyStrip s) <;> simp

/-- C3: `looks_like_ip` returns true exactly for (whitespace-trimmed) strings
of four dot-separated octets 0-255 or colon-containing tokens whose segments
have at most 4 characters, and in particular classifies "192.168.1.1",
"999.1.1.1", "2001:db8::1" and "not.an.ip" as the spec states. -/
theorem C3_looks_like_ip_shape :
    (∀ s : Str, looks_like_ip s = true ↔ ipShapeSpec (pyStrip s)) ∧
    looks_like_ip (chars "192.168.1.1") = true ∧
    looks_like_ip (chars "999.1.1.1") = false ∧
    looks_like_ip (chars "2001:db8::1") = true ∧
    looks_like_ip (chars "not.an.ip") = false := by
  refine ⟨?_, by decide, by decide, by decide, by decide⟩
  intro s
  rw [looks_like_ip_eq, Bool.or_eq_true, dottedQuad_iff, colonShape_iff]
  exact Iff.rfl

/-- C10: any string containing a colon whose non-empty colon-separated
segments all have length at most 4 passes `looks_like_ip`; in particular the
all-colon strings ":" and "::" pass, the per-segment check being vacuous. -/
theorem C10_colon_vacuous :
    (∀ s : Str, ':' ∈ s → (∀ p ∈ splitOnChar ':' s, p ≠ [] → p.length ≤ 4) →
      looks_like_ip s = true) ∧
    looks_like_ip (chars ":") = true ∧ looks_like_ip (chars "::") = true := by
  refine ⟨?_, by decide, by decide⟩
  intro s hmem hseg
  have hall : ∀ p ∈ splitOnChar ':' s, p.length ≤ 4 := by
    intro p hp
    by_cases hpe : p = []
    · simp [hpe]
    · exact hseg p hp hpe
  have h1 : chk 0 (pyStrip s) = true := chk_pyStrip s ((chk_zero_iff_all s).2 hall)
  have h3 : colonShape (pyStrip s) = true :=
    (colonShape_iff (pyStrip s)).2 ⟨colon_mem_pyStrip s hmem, (chk_zero_iff_all (pyStrip s)).1 h1⟩
  rw [looks_like_ip_eq, Bool.or_eq_true]
  exact Or.inr h3

/-- Witness for C10 at the concrete colon-containing input "2001:db8::1". -/
theorem C10_colon_vacuous_witness : looks_like_ip (chars "2001:db8::1") = true :=
  C10_colon_vacuous.1 (chars "2001:db8::1") (by decide) (by decide)

/-- C6 (amended): `_normalize_avg` lowercases, turns "ms" and "," into
spaces, trims, and collects the leading run of digits and dots (stopping at
the first other character once collection started); a parseable run is
formatted with one decimal place; when no run is found, or the run is not a
valid decimal (e.g. two dots), the trimmed original is returned — unchanged
when it has at most 12 characters, and otherwise truncated to its first 12
characters plus "...". -/
theorem C6_normalize_avg_amended :
    (∀ s0 : Str, parseDec (extractNum (avgLow (pyStrip s0))) = none →
      _normalize_avg s0 = avgFallback (pyStrip s0)) ∧
    (∀ s0 : Str, ∀ n k : Nat, parseDec (extractNum (avgLow (pyStrip s0))) = some (n, k) →
      _normalize_avg s0 = fmtFixed1 n k) ∧
    _normalize_avg (chars "123ms") = chars "123.0" ∧
    _normalize_avg (chars "45.6 ms") = chars "45.6" ∧
    _normalize_avg (chars "") = chars "" ∧
    _normalize_avg (chars "n/a") = chars "n/a" ∧
    _normalize_avg (chars "1.2.3") = chars "1.2.3" ∧
    _normalize_avg (chars "abcdefghijklm") = chars "abcdefghijkl..." := by
  refine ⟨?_, ?_, by decide, by decide, by decide, by decide, by decide, by decide⟩
  · intro s0 h
    by_cases he : (pyStrip s0).isEmpty = true
    · have hz : pyStrip s0 = [] := List.isEmpty_iff.1 he
      simp [_normalize_avg, he, avgFallback, hz]
    · simp [_normalize_avg, he, h]
  · intro s0 n k h
    by_cases he : (pyStrip s0).isEmpty = true
    · exfalso
      have hz : pyStrip s0 = [] := List.isEmpty_iff.1 he
      rw [hz, show parseDec (extractNum (avgLow ([] : Str))) = none from rfl] at h
      exact Option.noConfusion h
    · simp [_normalize_avg, he, h]

/-- C6 counterexample: the claim says that with no numeric run the original
trimmed string is returned unchanged, but on the 13-character "abcdefghijklm"
the code returns the first 12 characters plus an ellipsis; and on "1.2.3"
claimed extraction of "digits and at most one decimal point" would give
"1.2", but the code collects all dots, `float` fails, and the original is
returned. -/
theorem C6_counterexample :
    _normalize_avg (chars "abcdefghijklm") = chars "abcdefghijkl..." ∧
    chars "abcdefghijkl..." ≠ chars "abcdefghijklm" ∧
    _normalize_avg (chars "1.2.3") = chars "1.2.3" ∧
    chars "1.2.3" ≠ chars "1.2" :=
  ⟨by decide, by decide, by decide, by decide⟩

/-- Witness for C6 (amended) at "n/a" (no numeric run) and "123ms". -/
theorem C6_normalize_avg_amended_witness :
    (parseDec (extractNum (avgLow (pyStrip (chars "n/a")))) = none ∧
      _normalize_avg (chars "n/a") = avgFallback (pyStrip (chars "n/a"))) ∧
    (parseDec (extractNum (avgLow (pyStrip (chars "123ms")))) = some (123, 0) ∧
      _normalize_avg (chars "123ms") = fmtFixed1 123 0) :=
  ⟨⟨by decide, C6_normalize_avg_amended.1 (chars "n/a") (by decide)⟩,
   ⟨by decide, C6_normalize_avg_amended.2.1 (chars "123ms") 123 0 (by decide)⟩⟩

/-- C5 (amended): `_normalize_down` lowercases, removes commas and trims,
collects EVERY digit and dot of the whole string (unlike the latency
extractor, it does not stop at the first non-numeric character), sniffs the
unit case-insensitively ("mb" as-is, "kb" divided by 1024, "b/s"/"bps"/
"byte" divided by 1024*1024, otherwise the bare number), formats with two
decimal places, and returns the trimmed original when the collected run is
missing or unparsable. -/
theorem C5_normalize_down_amended :
    (∀ s0 : Str, parseDec (downNum (downLow (pyStrip s0))) = none →
      _normalize_down s0 = pyStrip s0) ∧
    (∀ s0 : Str, ∀ n k : Nat, parseDec (downNum (downLow (pyStrip s0))) = some (n, k) →
      containsSub (chars "mb") (downLow (pyStrip s0)) = true →
      _normalize_down s0 = fmtFixed2 n (10 ^ k)) ∧
    _normalize_down (chars "12.5MB/s") = chars "12.50" ∧
    _normalize_down (chars "1024KB") = chars "1.00" ∧
    _normalize_down (chars "") = chars "" ∧
    _normalize_down (chars "1a2") = chars "12.00" := by
  refine ⟨?_, ?_, by decide, by decide, by decide, by decide⟩
  · intro s0 h
    by_cases he : (pyStrip s0).isEmpty = true
    · have hz : pyStrip s0 = [] := List.isEmpty_iff.1 he
      simp [_normalize_down, he, hz]
    · simp [_normalize_down, he, h]
  · intro s0 n k h hmb
    by_cases he : (pyStrip s0).isEmpty = true
    · exfalso
      have hz : pyStrip s0 = [] := List.isEmpty_iff.1 he
      rw [hz, show parseDec (downNum (downLow ([] : Str))) = none from rfl] at h
      exact Option.noConfusion h
    · simp [_normalize_down, he, h, hmb]

/-- C5 counterexample: the claim says throughput extraction works "the same
way as latency normalization" (stop at the first non-numeric character after
digits have started), which on "1a2" would give "1" and hence "1.00"; the
code instead joins every digit of the whole string and returns "12.00". -/
theorem C5_counterexample :
    _normalize_down (chars "1a2") = chars "12.00" ∧ chars "12.00" ≠ chars "1.00" :=
  ⟨by decide, by decide⟩

/-- Witness for C5 (amended) at "x.y.z" (unparsable run "..") and
"12.5MB/s" (the mb branch). -/
theorem C5_normalize_down_amended_witness :
    (parseDec (downNum (downLow (pyStrip (chars "x.y.z")))) = none ∧
      _normalize_down (chars "x.y.z") = pyStrip (chars "x.y.z")) ∧
    (parseDec (downNum (downLow (pyStrip (chars "12.5MB/s")))) = some (125, 1) ∧
      containsSub (chars "mb") (downLow (pyStrip (chars "12.5MB/s"))) = true ∧
      _normalize_down (chars "12.5MB/s") = fmtFixed2 125 (10 ^ 1)) :=
  ⟨⟨by decide, C5_normalize_down_amended.1 (chars "x.y.z") (by decide)⟩,
   ⟨by decide, by decide,
    C5_normalize_down_amended.2.1 (chars "12.5MB/s") 125 1 (by decide) (by decide)⟩⟩

lemma firstIdxP_lt {α : Type} (p : α → Bool) (l : List α) (i : Nat)
    (h : firstIdxP p l = some i) : i < l.length := by
  induction l generalizing i with
  | nil => simp [firstIdxP] at h
  | cons x xs ih =>
    by_cases hp : p x = true
    · simp [firstIdxP, hp] at h
      subst h
      simp
    · simp [firstIdxP, hp, Option.map_eq_some'] at h
      obtain ⟨j, hj, rfl⟩ := h
      simpa using Nat.succ_lt_succ (ih j hj)

lemma findFirstAux_spec (p : Nat → Bool) (fuel i c : Nat)
    (h : findFirstAux p i fuel = some c) :
    p c = true ∧ i ≤ c ∧ ∀ j, i ≤ j → j < c → p j = false := by
  induction fuel generalizing i with
  | zero => simp [findFirstAux] at h
  | succ f ih =>
    by_cases hp : p i = true
    · simp [findFirstAux, hp] at h
      subst h
      exact ⟨hp, le_refl _, fun j h1 h2 => absurd h1 (by omega)⟩
    · simp [findFirstAux, hp] at h
      obtain ⟨hpc, hic, hmin⟩ := ih (i + 1) h
      have hpf : p i = false := by
        cases hpb : p i
        · rfl
        · exact absurd hpb hp
      refine ⟨hpc, by omega, ?_⟩
      intro j h1 h2
      by_cases hj : j = i
      · subst hj
        exact hpf
      · exact hmin j (by omega) h2

lemma length_le_numCols (rows : List Row) (r : Row) (h : r ∈ rows) :
    r.length ≤ numCols rows := by
  induction rows with
  | nil => simp at h
  | cons x xs ih =>
    rcases List.mem_cons.1 h with rfl | h
    · exact le_max_left _ _
    · exact le_trans (ih h) (le_max_right _ _)

lemma mem_of_mem_sampleRows (rows : List Row) (r : Row) (h : r ∈ sampleRows rows) :
    r ∈ rows :=
  List.mem_of_mem_drop (List.mem_of_mem_take h)

lemma get?_some_lt {α : Type} (l : List α) (n : Nat) (x : α) (h : l.get? n = some x) :
    n < l.length := by
  induction l generalizing n with
  | nil => simp [List.get?] at h
  | cons a as ih =>
    cases n with
    | zero => simp
    | succ m =>
      simp only [List.get?] at h
      exact Nat.succ_lt_succ (ih m h)

lemma headerOf_length_le (rows : List Row) (h1 : rows ≠ []) :
    (headerOf rows).length ≤ numCols rows := by
  cases rows with
  | nil => exact absurd rfl h1
  | cons r0 rest =>
    unfold headerOf
    rw [List.headD_cons, List.length_map]
    exact length_le_numCols _ r0 (List.mem_cons_self _ _)

lemma numCols_pos (rows : List Row) (h1 : rows ≠ [])
    (h2 : ∀ r ∈ rows, ∃ cell ∈ r, pyStrip cell ≠ []) : 0 < numCols rows := by
  cases rows with
  | nil => exact absurd rfl h1
  | cons r0 rest =>
    obtain ⟨cell, hc, -⟩ := h2 r0 (List.mem_cons_self _ _)
    have : 0 < r0.length := List.length_pos.2 (List.ne_nil_of_mem hc)
    exact lt_of_lt_of_le this (length_le_numCols _ r0 (List.mem_cons_self _ _))

lemma sniffPred_lt_numCols (rows : List Row) (c : Nat) (h : sniffPred rows c = true) :
    c < numCols rows := by
  unfold sniffPred at h
  rw [List.any_eq_true] at h
  obtain ⟨r, hr, hpc⟩ := h
  cases hrc : r.get? c with
  | none => rw [hrc] at hpc; simp at hpc
  | some cell =>
    have : c < r.length := get?_some_lt r c cell hrc
    exact lt_of_lt_of_le this
      (length_le_numCols rows r (mem_of_mem_sampleRows rows r hr))

/-- C4: for non-empty parsed rows (each with some non-blank cell, as the
loader guarantees by filtering), every one of the four logical fields
resolves, and every resolved index is strictly below the widest row's
column count. -/
theorem C4_resolution_total (rows : List Row) (h1 : rows ≠ [])
    (h2 : ∀ r ∈ rows, ∃ cell ∈ r, pyStrip cell ≠ []) :
    (resolveIndices rows).ip < numCols rows ∧
    (resolveIndices rows).avg < numCols rows ∧
    (resolveIndices rows).down < numCols rows ∧
    (resolveIndices rows).region < numCols rows := by
  have hpos := numCols_pos rows h1 h2
  have hhdr := headerOf_length_le rows h1
  refine ⟨?_, ?_, ?_, ?_⟩
  · simp only [resolveIndices]
    cases hip : headerIpIdx rows with
    | some i => exact lt_of_lt_of_le (firstIdxP_lt _ _ i hip) hhdr
    | none =>
      cases hsn : sniffIp rows with
      | some c => exact sniffPred_lt_numCols rows c (findFirstAux_spec _ _ 0 c hsn).1
      | none => exact hpos
  · simp only [resolveIndices]
    cases hav : headerAvgIdx rows with
    | some i => exact lt_of_lt_of_le (firstIdxP_lt _ _ i hav) hhdr
    | none => exact lt_of_le_of_lt (min_le_right _ _) (Nat.sub_lt hpos Nat.one_pos)
  · simp only [resolveIndices]
    cases hdn : headerDownIdx rows with
    | some i => exact lt_of_lt_of_le (firstIdxP_lt _ _ i hdn) hhdr
    | none => exact lt_of_le_of_lt (min_le_right _ _) (Nat.sub_lt hpos Nat.one_pos)
  · simp only [resolveIndices]
    cases hrg : headerRegionIdx rows with
    | some i => exact lt_of_lt_of_le (firstIdxP_lt _ _ i hrg) hhdr
    | none => exact lt_of_le_of_lt (min_le_right _ _) (Nat.sub_lt hpos Nat.one_pos)

/-- Witness for C4 at a concrete two-row, ragged input. -/
theorem C4_resolution_total_witness :
    (ex1 ≠ [] ∧ ∀ r ∈ ex1, ∃ cell ∈ r, pyStrip cell ≠ []) ∧
    ((resolveIndices ex1).ip < numCols ex1 ∧
     (resolveIndices ex1).avg < numCols ex1 ∧
     (resolveIndices ex1).down < numCols ex1 ∧
     (resolveIndices ex1).region < numCols ex1) :=
  ⟨⟨by decide, by decide⟩, C4_resolution_total ex1 (by decide) (by decide)⟩

/-- C1 (amended): when "ip" is not resolved from the header, the sniff picks
the first column index at which SOME sampled row (within its bounds) has an
IP-shaped value — not a column where every sampled row does. -/
theorem C1_sniff_first_any (rows : List Row) (c : Nat)
    (h1 : headerIpIdx rows = none) (h2 : sniffIp rows = some c) :
    (resolveIndices rows).ip = c ∧ sniffPred rows c = true ∧
    ∀ j < c, sniffPred rows j = false := by
  have hspec := findFirstAux_spec (sniffPred rows) (sniffBound rows) 0 c h2
  refine ⟨?_, hspec.1, fun j hj => hspec.2.2 j (Nat.zero_le j) hj⟩
  simp [resolveIndices, h1, h2]

/-- C1 counterexample: on `ex1` the header does not resolve "ip"; column 0
fails the claimed every-sampled-row test (its first value "x" is not
IP-shaped) while column 1 passes it, yet the code chooses column 0, because
its second sampled row has an IP-shaped value there. -/
theorem C1_counterexample :
    headerIpIdx ex1 = none ∧
    (resolveIndices ex1).ip = 0 ∧
    looks_like_ip (chars "x") = false ∧
    ((sampleRows ex1).all (fun r => ((r.get? 0).map looks_like_ip).getD false)) = false ∧
    ((sampleRows ex1).all (fun r => ((r.get? 1).map looks_like_ip).getD false)) = true :=
  ⟨by decide, by decide, by decide, by decide, by decide⟩

/-- Witness for C1 (amended) at `ex1`, where the sniff selects column 0. -/
theorem C1_sniff_first_any_witness :
    (headerIpIdx ex1 = none ∧ sniffIp ex1 = some 0) ∧
    (resolveIndices ex1).ip = 0 ∧ sniffPred ex1 0 = true :=
  ⟨⟨by decide, by decide⟩, (C1_sniff_first_any ex1 0 (by decide) (by decide)).1,
   (C1_sniff_first_any ex1 0 (by decide) (by decide)).2.1⟩

lemma rowIp_nil (ipIdx : Nat) : rowIp ipIdx [] = [] := rfl

lemma groupStep_noIp (ipIdx : Nat) (ridx : Option Nat) (acc : List (Str × List Str))
    (r : Row) (h : rowIp ipIdx r = []) : groupStep ipIdx ridx acc r = acc := by
  unfold groupStep
  by_cases hre : r.isEmpty = true
  · simp [hre]
  · simp [hre, h]

lemma isEmpty_false_of_rowIp (ipIdx : Nat) (r : Row)
    (h : ¬ (rowIp ipIdx r).isEmpty = true) : r.isEmpty = false := by
  cases r with
  | nil => exact absurd rfl h
  | cons a as => rfl

/-- C7 (amended): in the `on_stat` aggregator a data row whose cell at the
resolved IP index is empty or missing is simply skipped — there is no
per-row fallback to the first IP-shaped cell (that fallback exists only in
the result-table loader), so such a row contributes to no region's list. -/
theorem C7_no_row_fallback (ipIdx : Nat) (ridx : Option Nat)
    (pre post : List Row) (r : Row) (h : rowIp ipIdx r = []) :
    groupRows ipIdx ridx (pre ++ r :: post) = groupRows ipIdx ridx (pre ++ post) := by
  unfold groupRows
  rw [List.foldl_append, List.foldl_append, List.foldl_cons,
    groupStep_noIp ipIdx ridx _ r h]

/-- C7 counterexample: in `ex7` the second data row has a blank cell at the
resolved IP index 0 but an IP-shaped value "2.2.2.2" in column 2; the claim
would append "2.2.2.2" to region LAX, yet the code aggregates only the first
data row and "2.2.2.2" appears in no region's list. -/
theorem C7_counterexample :
    onStatRegions ex7 = [(chars "LAX", [chars "1.1.1.1"])] ∧
    (∀ e ∈ onStatRegions ex7, chars "2.2.2.2" ∉ e.2) ∧
    looks_like_ip (chars "2.2.2.2") = true ∧
    statIpIdx ex7 = 0 ∧
    rowIp (statIpIdx ex7) [chars "", chars "LAX", chars "2.2.2.2"] = [] :=
  ⟨by decide, by decide, by decide, by decide, by decide⟩

/-- Witness for C7 (amended) at the `ex7` data rows. -/
theorem C7_no_row_fallback_witness :
    rowIp 0 [chars "", chars "LAX", chars "2.2.2.2"] = [] ∧
    groupRows 0 (some 1)
        [[chars "1.1.1.1", chars "LAX"], [chars "", chars "LAX", chars "2.2.2.2"]] =
      groupRows 0 (some 1) [[chars "1.1.1.1", chars "LAX"]] :=
  ⟨by decide,
   C7_no_row_fallback 0 (some 1) [[chars "1.1.1.1", chars "LAX"]] []
     [chars "", chars "LAX", chars "2.2.2.2"] (by decide)⟩

lemma groupRows_filter_inv (ipIdx : Nat) (ridx : Option Nat) (dataRows : List Row) :
    groupRows ipIdx ridx (dataRows.filter (fun r => !(rowIp ipIdx r).isEmpty)) =
      groupRows ipIdx ridx dataRows := by
  unfold groupRows
  suffices h : ∀ acc : List (Str × List Str),
      (dataRows.filter (fun r => !(rowIp ipIdx r).isEmpty)).foldl (groupStep ipIdx ridx) acc =
        dataRows.foldl (groupStep ipIdx ridx) acc from h []
  induction dataRows with
  | nil => intro acc; rfl
  | cons r rs ih =>
    intro acc
    by_cases hk : (rowIp ipIdx r).isEmpty = true
    · have h0 : rowIp ipIdx r = [] := List.isEmpty_iff.1 hk
      rw [List.filter_cons]
      simp only [hk, Bool.not_true, Bool.false_eq_true, if_false]
      rw [List.foldl_cons, groupStep_noIp ipIdx ridx acc r h0]
      exact ih acc
    · rw [List.filter_cons]
      have hk' : (!(rowIp ipIdx r).isEmpty) = true := by
        cases hb : (rowIp ipIdx r).isEmpty
        · rfl
        · exact absurd hb hk
      simp only [hk', if_true]
      rw [List.foldl_cons, List.foldl_cons]
      exact ih _

lemma lookupG_addIp_same (code ip : Str) (acc : List (Str × List Str)) :
    lookupG code (addIp code ip acc) = some ((lookupG code acc).getD [] ++ [ip]) := by
  induction acc with
  | nil => simp [addIp, lookupG]
  | cons e rest ih =>
    by_cases he : e.1 = code
    · simp [addIp, lookupG, he]
    · simp [addIp, lookupG, he, ih]

lemma lookupG_addIp_other (code code' ip : Str) (acc : List (Str × List Str))
    (h : code' ≠ code) : lookupG code' (addIp code ip acc) = lookupG code' acc := by
  have hcc : ¬ code = code' := fun hh => h hh.symm
  induction acc with
  | nil => simp [addIp, lookupG, hcc]
  | cons e rest ih =>
    by_cases he : e.1 = code
    · simp [addIp, lookupG, he, hcc]
    · simp [addIp, lookupG, he, ih]

lemma groupRows_lookup (ipIdx : Nat) (ridx : Option Nat) (code : Str)
    (dataRows : List Row) : ∀ acc : List (Str × List Str),
    lookupG code (dataRows.foldl (groupStep ipIdx ridx) acc) =
      combineIps (lookupG code acc) (specIps ipIdx ridx code dataRows) := by
  induction dataRows with
  | nil =>
    intro acc
    cases h : lookupG code acc <;> simp [specIps, combineIps, h]
  | cons r rs ih =>
    intro acc
    rw [List.foldl_cons]
    by_cases hip : (rowIp ipIdx r).isEmpty = true
    · have h0 : rowIp ipIdx r = [] := List.isEmpty_iff.1 hip
      rw [groupStep_noIp ipIdx ridx acc r h0, ih acc]
      have hsp : specIps ipIdx ridx code (r :: rs) = specIps ipIdx ridx code rs := by
        simp [specIps, List.filter_cons, hip]
      rw [hsp]
    · have hre : r.isEmpty = false := isEmpty_false_of_rowIp ipIdx r hip
      by_cases hr : rowRegion ridx r = code
      · have hstep : groupStep ipIdx ridx acc r = addIp code (rowIp ipIdx r) acc := by
          unfold groupStep
          simp [hre, hip, hr]
        rw [hstep, ih _, lookupG_addIp_same]
        have hsp : specIps ipIdx ridx code (r :: rs) =
            rowIp ipIdx r :: specIps ipIdx ridx code rs := by
          simp [specIps, List.filter_cons, hip, hr]
        rw [hsp]
        cases h : lookupG code acc <;> simp [combineIps, h]
      · have hstep : groupStep ipIdx ridx acc r =
            addIp (rowRegion ridx r) (rowIp ipIdx r) acc := by
          unfold groupStep
          simp [hre, hip]
        rw [hstep, ih _,
          lookupG_addIp_other (rowRegion ridx r) code (rowIp ipIdx r) acc
            (fun hh => hr hh.symm)]
        have hsp : specIps ipIdx ridx code (r :: rs) = specIps ipIdx ridx code rs := by
          simp [specIps, List.filter_cons, hip, hr]
        rw [hsp]

lemma mem_keysOf_addIp (code ip c' : Str) (acc : List (Str × List Str)) :
    c' ∈ keysOf (addIp code ip acc) ↔ c' = code ∨ c' ∈ keysOf acc := by
  induction acc with
  | nil => simp [addIp, keysOf]
  | cons e rest ih =>
    by_cases he : e.1 = code
    · simp [addIp, keysOf, he]
    · simp only [addIp, he, if_false, Bool.false_eq_true]
      show c' ∈ e.1 :: keysOf (addIp code ip rest) ↔ _
      rw [List.mem_cons, ih]
      show _ ↔ c' = code ∨ c' ∈ e.1 :: keysOf rest
      rw [List.mem_cons]
      tauto

lemma nodup_keys_addIp (code ip : Str) (acc : List (Str × List Str))
    (h : (keysOf acc).Nodup) : (keysOf (addIp code ip acc)).Nodup := by
  induction acc with
  | nil => simp [addIp, keysOf]
  | cons e rest ih =>
    have h' := List.nodup_cons.1 (show (e.1 :: keysOf rest).Nodup from h)
    by_cases he : e.1 = code
    · simp only [addIp, if_pos he]
      exact h
    · simp only [addIp, he, if_false, Bool.false_eq_true]
      show (e.1 :: keysOf (addIp code ip rest)).Nodup
      refine List.nodup_cons.2 ⟨?_, ih h'.2⟩
      intro hmem
      rcases (mem_keysOf_addIp code ip e.1 rest).1 hmem with h1 | h1
      · exact he h1
      · exact h'.1 h1

lemma nodup_keys_groupStep (ipIdx : Nat) (ridx : Option Nat)
    (acc : List (Str × List Str)) (r : Row) (h : (keysOf acc).Nodup) :
    (keysOf (groupStep ipIdx ridx acc r)).Nodup := by
  unfold groupStep
  by_cases h1 : r.isEmpty = true
  · simpa [h1] using h
  · by_cases h2 : (rowIp ipIdx r).isEmpty = true
    · simpa [h1, h2] using h
    · simpa [h1, h2] using nodup_keys_addIp (rowRegion ridx r) (rowIp ipIdx r) acc h

lemma nodup_keys_groupRows (ipIdx : Nat) (ridx : Option Nat) (dataRows : List Row) :
    (keysOf (groupRows ipIdx ridx dataRows)).Nodup := by
  unfold groupRows
  suffices h : ∀ acc : List (Str × List Str), (keysOf acc).Nodup →
      (keysOf (dataRows.foldl (groupStep ipIdx ridx) acc)).Nodup from
    h [] (by simp [keysOf])
  induction dataRows with
  | nil => intro acc hacc; exact hacc
  | cons r rs ih =>
    intro acc hacc
    rw [List.foldl_cons]
    exact ih _ (nodup_keys_groupStep ipIdx ridx acc r hacc)

lemma mem_insDesc (x z : Str × List Str) (l : List (Str × List Str)) :
    z ∈ insDesc x l ↔ z = x ∨ z ∈ l := by
  induction l with
  | nil => simp [insDesc]
  | cons y ys ih =>
    by_cases hc : cntOf x ≤ cntOf y
    · rw [show insDesc x (y :: ys) = y :: insDesc x ys from by simp [insDesc, hc]]
      rw [List.mem_cons, ih, List.mem_cons]
      tauto
    · rw [show insDesc x (y :: ys) = x :: y :: ys from by simp [insDesc, hc]]
      rw [List.mem_cons, List.mem_cons]

lemma pairwise_insDesc (x : Str × List Str) (l : List (Str × List Str))
    (h : l.Pairwise (fun a b => cntOf b ≤ cntOf a)) :
    (insDesc x l).Pairwise (fun a b => cntOf b ≤ cntOf a) := by
  induction l with
  | nil => simp [insDesc]
  | cons y ys ih =>
    rw [List.pairwise_cons] at h
    by_cases hc : cntOf x ≤ cntOf y
    · rw [show insDesc x (y :: ys) = y :: insDesc x ys from by simp [insDesc, hc]]
      rw [List.pairwise_cons]
      refine ⟨?_, ih h.2⟩
      intro z hz
      rcases (mem_insDesc x z ys).1 hz with rfl | hz
      · exact hc
      · exact h.1 z hz
    · rw [show insDesc x (y :: ys) = x :: y :: ys from by simp [insDesc, hc]]
      rw [List.pairwise_cons]
      constructor
      · intro z hz
        rcases List.mem_cons.1 hz with rfl | hz
        · omega
        · have := h.1 z hz
          omega
      · exact List.pairwise_cons.2 h

lemma filter_insDesc (k : Nat) (x : Str × List Str) (l : List (Str × List Str))
    (h : l.Pairwise (fun a b => cntOf b ≤ cntOf a)) :
    (insDesc x l).filter (fun e => cntOf e == k) =
      (l ++ [x]).filter (fun e => cntOf e == k) := by
  induction l with
  | nil => simp [insDesc]
  | cons y ys ih =>
    rw [List.pairwise_cons] at h
    by_cases hc : cntOf x ≤ cntOf y
    · rw [show insDesc x (y :: ys) = y :: insDesc x ys from by simp [insDesc, hc]]
      rw [List.cons_append, List.filter_cons, List.filter_cons, ih h.2]
    · rw [show insDesc x (y :: ys) = x :: y :: ys from by simp [insDesc, hc]]
      have hyx : cntOf y < cntOf x := Nat.lt_of_not_le hc
      by_cases hx : cntOf x = k
      · have hyk : ¬ cntOf y = k := by omega
        have hysf : ys.filter (fun e => cntOf e == k) = [] := by
          rw [List.filter_eq_nil_iff]
          intro a ha
          have := h.1 a ha
          simp [beq_iff_eq]
          omega
        simp [List.filter_cons, List.filter_append, hysf, hx, hyk, beq_iff_eq]
      · simp [List.filter_cons, List.filter_append, hx, beq_iff_eq]

lemma sortRegions_spec (items : List (Str × List Str)) :
    ∀ acc : List (Str × List Str), acc.Pairwise (fun a b => cntOf b ≤ cntOf a) →
      ((items.foldl (fun a x => insDesc x a) acc).Pairwise (fun a b => cntOf b ≤ cntOf a) ∧
       ∀ k : Nat, (items.foldl (fun a x => insDesc x a) acc).filter (fun e => cntOf e == k) =
         (acc ++ items).filter (fun e => cntOf e == k)) := by
  induction items with
  | nil =>
    intro acc h
    exact ⟨h, fun k => by simp⟩
  | cons x xs ih =>
    intro acc h
    rw [List.foldl_cons]
    obtain ⟨hp, hf⟩ := ih (insDesc x acc) (pairwise_insDesc x acc h)
    refine ⟨hp, ?_⟩
    intro k
    rw [hf k, List.filter_append, filter_insDesc k x acc h]
    show _ = (acc ++ ([x] ++ xs)).filter _
    by_cases hx : (cntOf x == k) = true <;>
      simp [List.filter_append, List.append_assoc, List.filter_cons, hx]

/-- C8: region aggregation is total and deterministic (as a pure function of
the rows): skipping the rows with no resolved IP leaves the grouping
unchanged; for every region code the grouped list is exactly the resolved
IPs of the rows carrying that code, in row order (so every such row lands in
exactly one region's list, the keys being distinct); and the sorted output
is descending by count and, for each count value, preserves discovery order
(a stable sort). -/
theorem C8_aggregation_stable_total (ipIdx : Nat) (ridx : Option Nat)
    (dataRows : List Row) :
    groupRows ipIdx ridx (dataRows.filter (fun r => !(rowIp ipIdx r).isEmpty)) =
      groupRows ipIdx ridx dataRows ∧
    (∀ code : Str, lookupG code (groupRows ipIdx ridx dataRows) =
      if (specIps ipIdx ridx code dataRows).isEmpty then none
      else some (specIps ipIdx ridx code dataRows)) ∧
    (keysOf (groupRows ipIdx ridx dataRows)).Nodup ∧
    (sortRegions (groupRows ipIdx ridx dataRows)).Pairwise
      (fun a b => cntOf b ≤ cntOf a) ∧
    (∀ k : Nat, (sortRegions (groupRows ipIdx ridx dataRows)).filter
        (fun e => cntOf e == k) =
      (groupRows ipIdx ridx dataRows).filter (fun e => cntOf e == k)) ∧
    (∀ rows : List Row, onStatRegions rows =
      sortRegions (groupRows (statIpIdx rows) (statRegionIdx rows)
        (rows.drop (statStartRow rows)))) := by
  obtain ⟨hp, hf⟩ := sortRegions_spec (groupRows ipIdx ridx dataRows) [] (by simp)
  refine ⟨groupRows_filter_inv ipIdx ridx dataRows, ?_, nodup_keys_groupRows ipIdx ridx dataRows,
    hp, ?_, fun rows => rfl⟩
  · intro code
    have h := groupRows_lookup ipIdx ridx code dataRows []
    rw [show (groupRows ipIdx ridx dataRows) = dataRows.foldl (groupStep ipIdx ridx) [] from rfl]
    rw [h]
    rfl
  · intro k
    have := hf k
    simpa using this

lemma strLt_cons_iff (aa bb : Char) (as bs : Str) :
    strLt (aa :: as) (bb :: bs) = true ↔ (aa < bb ∨ (aa = bb ∧ strLt as bs = true)) := by
  simp only [strLt]
  by_cases h1 : aa < bb
  · simp [h1]
  · by_cases h2 : bb < aa
    · simp [h1, h2, ne_of_gt h2]
    · have heq : aa = bb := le_antisymm (not_lt.1 h2) (not_lt.1 h1)
      simp [h1, h2, heq]

lemma strLt_trans (a b c : Str) (h1 : strLt a b = true) (h2 : strLt b c = true) :
    strLt a c = true := by
  induction a generalizing b c with
  | nil =>
    cases b with
    | nil => simp [strLt] at h1
    | cons bb bs =>
      cases c with
      | nil => simp [strLt] at h2
      | cons cc cs => simp [strLt]
  | cons aa as ih =>
    cases b with
    | nil => simp [strLt] at h1
    | cons bb bs =>
      cases c with
      | nil => simp [strLt] at h2
      | cons cc cs =>
        rw [strLt_cons_iff] at h1 h2 ⊢
        rcases h1 with h1 | ⟨rfl, h1⟩
        · rcases h2 with h2 | ⟨rfl, h2⟩
          · exact Or.inl (lt_trans h1 h2)
          · exact Or.inl h1
        · rcases h2 with h2 | ⟨rfl, h2⟩
          · exact Or.inl h2
          · exact Or.inr ⟨rfl, ih bs cs h1 h2⟩

lemma strLt_total (a b : Str) (h : a ≠ b) : strLt a b = true ∨ strLt b a = true := by
  induction a generalizing b with
  | nil =>
    cases b with
    | nil => exact absurd rfl h
    | cons bb bs => exact Or.inl (by simp [strLt])
  | cons aa as ih =>
    cases b with
    | nil => exact Or.inr (by simp [strLt])
    | cons bb bs =>
      by_cases hab : aa < bb
      · exact Or.inl ((strLt_cons_iff aa bb as bs).2 (Or.inl hab))
      · by_cases hba : bb < aa
        · exact Or.inr ((strLt_cons_iff bb aa bs as).2 (Or.inl hba))
        · have heq : aa = bb := le_antisymm (not_lt.1 hba) (not_lt.1 hab)
          have hne : as ≠ bs := by
            intro hh
            exact h (by rw [heq, hh])
          rcases ih bs hne with h1 | h1
          · exact Or.inl ((strLt_cons_iff aa bb as bs).2 (Or.inr ⟨heq, h1⟩))
          · exact Or.inr ((strLt_cons_iff bb aa bs as).2 (Or.inr ⟨heq.symm, h1⟩))

lemma strLt_irrefl (a : Str) : strLt a a = false := by
  induction a with
  | nil => rfl
  | cons aa as ih => simp [strLt, ih]

lemma mem_insUniq (x z : Str) (l : List Str) :
    z ∈ insUniq x l ↔ z = x ∨ z ∈ l := by
  induction l with
  | nil => simp [insUniq]
  | cons y ys ih =>
    by_cases h1 : strLt x y = true
    · rw [show insUniq x (y :: ys) = x :: y :: ys from by simp [insUniq, h1]]
      simp [List.mem_cons]
    · by_cases h2 : x = y
      · rw [show insUniq x (y :: ys) = y :: ys from by simp [insUniq, h1, h2, strLt_irrefl]]
        subst h2
        simp only [List.mem_cons]
        tauto
      · rw [show insUniq x (y :: ys) = y :: insUniq x ys from by simp [insUniq, h1, h2]]
        rw [List.mem_cons, ih, List.mem_cons]
        tauto

lemma pairwise_insUniq (x : Str) (l : List Str)
    (h : l.Pairwise (fun a b => strLt a b = true)) :
    (insUniq x l).Pairwise (fun a b => strLt a b = true) := by
  induction l with
  | nil => simp [insUniq]
  | cons y ys ih =>
    rw [List.pairwise_cons] at h
    by_cases h1 : strLt x y = true
    · rw [show insUniq x (y :: ys) = x :: y :: ys from by simp [insUniq, h1]]
      rw [List.pairwise_cons]
      constructor
      · intro z hz
        rcases List.mem_cons.1 hz with rfl | hz
        · exact h1
        · exact strLt_trans x y z h1 (h.1 z hz)
      · exact List.pairwise_cons.2 h
    · by_cases h2 : x = y
      · rw [show insUniq x (y :: ys) = y :: ys from by simp [insUniq, h1, h2, strLt_irrefl]]
        exact List.pairwise_cons.2 h
      · rw [show insUniq x (y :: ys) = y :: insUniq x ys from by simp [insUniq, h1, h2]]
        rw [List.pairwise_cons]
        constructor
        · intro z hz
          rcases (mem_insUniq x z ys).1 hz with hzx | hz
          · subst hzx
            rcases strLt_total z y h2 with hh | hh
            · exact absurd hh h1
            · exact hh
          · exact h.1 z hz
        · exact ih h.2

lemma pairwise_exportFold (l : List Str) :
    (l.foldr insUniq []).Pairwise (fun a b => strLt a b = true) := by
  induction l with
  | nil => simp
  | cons x xs ih => exact pairwise_insUniq x _ ih

lemma mem_exportFold (l : List Str) (z : Str) : z ∈ l.foldr insUniq [] ↔ z ∈ l := by
  induction l with
  | nil => simp
  | cons x xs ih => rw [List.foldr_cons, mem_insUniq, ih, List.mem_cons]

/-- C9: the selection export writes exactly the distinct non-blank trimmed IP
strings of the selected region, in strictly ascending lexicographic order,
one per line; the spec's example list exports as the two lines "10.0.0.1",
"10.0.0.2". -/
theorem C9_export_sorted_unique :
    (∀ ips : List Str, (exportLines ips).Pairwise (fun a b => strLt a b = true)) ∧
    (∀ ips : List Str, (exportLines ips).Nodup) ∧
    (∀ ips : List Str, ∀ z : Str,
      z ∈ exportLines ips ↔ (z ≠ [] ∧ ∃ ip ∈ ips, pyStrip ip = z)) ∧
    exportLines [chars "10.0.0.2", chars "10.0.0.1", chars "10.0.0.1"] =
      [chars "10.0.0.1", chars "10.0.0.2"] := by
  refine ⟨fun ips => pairwise_exportFold _, ?_, ?_, by decide⟩
  · intro ips
    refine List.Pairwise.imp ?_ (pairwise_exportFold _)
    intro a b hab he
    subst he
    rw [strLt_irrefl] at hab
    exact Bool.noConfusion hab
  · intro ips z
    unfold exportLines
    rw [mem_exportFold]
    simp only [List.mem_filter, List.mem_map, Bool.not_eq_true', List.isEmpty_eq_false]
    tauto

/-- C2 counterexample: after a successful scan launch the state is
reachable, its scan process is still running (outstanding), yet the speed
button is still enabled and a measurement launch step fires from it —
refuting that neither a scan nor a measurement can be started while a
previously launched process is still outstanding. -/
theorem C2_counterexample :
    Reachable exC2s1 ∧
    (⟨0, PKind.scan, false, true⟩ : PRec) ∈ exC2s1.procs ∧
    exC2s1.speedEnabled = true ∧
    GuiStep exC2s1 (Ev.speedLaunch 1) exC2s2 := by
  refine ⟨?_, by decide, rfl, ?_⟩
  · exact Reachable.step Reachable.init
      (GuiStep.scanLaunch initState 0 rfl (by decide))
  · exact GuiStep.speedLaunch exC2s1 1 rfl (by decide)

/-- C2 (amended): at most one process handle is tracked as current (the
single `current` field, overwritten by a later launch); a scan (resp.
measurement) launch fires only while its own button is enabled and disables
exactly that button; and a disabled button is re-enabled only when that
action's completion callback runs — delivered either by its monitor thread
for an exited process of that action, or by the shared poll timer whose
closure captured that action, regardless of which process the timer polled.
The pairing really is loose: on a concrete reachable trace the timer,
captured by the scan but polling the measurement's process, re-enables the
scan button while the scan's own process is still running, after which a
second scan launches, leaving two running scan processes. -/
theorem C2_button_callback_pairing :
    (∀ s t : GuiState, ∀ pid : Nat, GuiStep s (Ev.scanLaunch pid) t →
      s.scanEnabled = true ∧ t.scanEnabled = false) ∧
    (∀ s t : GuiState, ∀ pid : Nat, GuiStep s (Ev.speedLaunch pid) t →
      s.speedEnabled = true ∧ t.speedEnabled = false) ∧
    (∀ s t : GuiState, ∀ e : Ev, GuiStep s e t →
      s.scanEnabled = false → t.scanEnabled = true →
      (∃ pid : Nat, ∃ r : PRec, e = Ev.monDeliver pid ∧ r ∈ s.procs ∧
        r.pid = pid ∧ r.kind = PKind.scan ∧ r.exited = true) ∨
      (e = Ev.timerFire ∧ s.timer = some PKind.scan)) ∧
    (∀ s t : GuiState, ∀ e : Ev, GuiStep s e t →
      s.speedEnabled = false → t.speedEnabled = true →
      (∃ pid : Nat, ∃ r : PRec, e = Ev.monDeliver pid ∧ r ∈ s.procs ∧
        r.pid = pid ∧ r.kind = PKind.speed ∧ r.exited = true) ∨
      (e = Ev.timerFire ∧ s.timer = some PKind.speed)) ∧
    (Reachable exC2s4 ∧ exC2s4.scanEnabled = true ∧
      (⟨0, PKind.scan, false, true⟩ : PRec) ∈ exC2s4.procs ∧
      GuiStep exC2s4 (Ev.scanLaunch 2) exC2s5 ∧
      (⟨0, PKind.scan, false, true⟩ : PRec) ∈ exC2s5.procs ∧
      (⟨2, PKind.scan, false, true⟩ : PRec) ∈ exC2s5.procs) := by
  refine ⟨?_, ?_, ?_, ?_, ?_⟩
  · intro s t pid h
    cases h
    rename_i hen hfresh
    exact ⟨hen, rfl⟩
  · intro s t pid h
    cases h
    rename_i hen hfresh
    exact ⟨hen, rfl⟩
  · intro s t e h h1 h2
    cases h
    case scanLaunch => simp at h2
    case scanLaunchFail => simp [h1] at h2
    case speedLaunch => simp [h1] at h2
    case speedLaunchFail => simp [h1] at h2
    case procExit => simp [h1] at h2
    case monDeliver =>
      rename_i pid r hmem hpid hex hpend
      revert h2
      cases hk : r.kind with
      | scan =>
        intro h2
        exact Or.inl ⟨pid, r, rfl, hmem, hpid, hk, hex⟩
      | speed =>
        intro h2
        simp [onDone, h1] at h2
    case timerFire =>
      rename_i k q r htimer hcur hmem hpid hex
      cases k with
      | scan => exact Or.inr ⟨rfl, htimer⟩
      | speed => simp [stopTimer, onDone, h1] at h2
    case timerClear => simp [stopTimer, h1] at h2
  · intro s t e h h1 h2
    cases h
    case scanLaunch => simp [h1] at h2
    case scanLaunchFail => simp [h1] at h2
    case speedLaunch => simp at h2
    case speedLaunchFail => simp [h1] at h2
    case procExit => simp [h1] at h2
    case monDeliver =>
      rename_i pid r hmem hpid hex hpend
      revert h2
      cases hk : r.kind with
      | scan =>
        intro h2
        simp [onDone, h1] at h2
      | speed =>
        intro h2
        exact Or.inl ⟨pid, r, rfl, hmem, hpid, hk, hex⟩
    case timerFire =>
      rename_i k q r htimer hcur hmem hpid hex
      cases k with
      | scan => simp [stopTimer, onDone, h1] at h2
      | speed => exact Or.inr ⟨rfl, htimer⟩
    case timerClear => simp [stopTimer, h1] at h2
  · have h1 : GuiStep initState (Ev.scanLaunch 0) exC2s1 :=
      GuiStep.scanLaunch initState 0 rfl (by decide)
    have h2 : GuiStep exC2s1 (Ev.speedLaunch 1) exC2s2 :=
      GuiStep.speedLaunch exC2s1 1 rfl (by decide)
    have h3 : GuiStep exC2s2 (Ev.procExit 1) exC2s3 :=
      GuiStep.procExit exC2s2 1 ⟨1, PKind.speed, false, true⟩ (by decide) rfl rfl
    have h4 : GuiStep exC2s3 Ev.timerFire exC2s4 :=
      GuiStep.timerFire exC2s3 PKind.scan 1 ⟨1, PKind.speed, true, true⟩ rfl rfl
        (by decide) rfl rfl
    refine ⟨?_, rfl, by decide, ?_, by decide, by decide⟩
    · exact Reachable.step
        (Reachable.step (Reachable.step (Reachable.step Reachable.init h1) h2) h3) h4
    · exact GuiStep.scanLaunch exC2s4 2 rfl (by decide)

/-- Witness for C2 (amended): the launch-guard conjunct applied at the
concrete scan launch out of the initial state, and the re-enable conjunct
applied at the concrete mis-paired timer delivery of the trace. -/
theorem C2_button_callback_pairing_witness :
    (initState.scanEnabled = true ∧ exC2s1.scanEnabled = false) ∧
    ((∃ pid : Nat, ∃ r : PRec, Ev.timerFire = Ev.monDeliver pid ∧ r ∈ exC2s3.procs ∧
        r.pid = pid ∧ r.kind = PKind.scan ∧ r.exited = true) ∨
      (Ev.timerFire = Ev.timerFire ∧ exC2s3.timer = some PKind.scan)) :=
  ⟨C2_button_callback_pairing.1 initState exC2s1 0
      (GuiStep.scanLaunch initState 0 rfl (by decide)),
   C2_button_callback_pairing.2.2.1 exC2s3 exC2s4 Ev.timerFire
      (GuiStep.timerFire exC2s3 PKind.scan 1 ⟨1, PKind.speed, true, true⟩ rfl rfl
        (by decide) rfl rfl)
      rfl rfl⟩
